import Mathlib

/-!
# Verification of the duckdb-lancedb vector index extension

A shallow embedding of the LANCE index extension: the label↔row-id mapping
maintained by `LanceIndex` (src/lance_index.cpp), its Append / Delete /
MergeIndexes / Vacuum / Search operations, the linked-block metadata
persistence codec, the index-name sanitization, and the
`ORDER BY distance LIMIT k` optimizer rewrite (src/lance_optimizer.cpp).

Machine integers are modelled as `Int`/`Nat`; row identifiers (`row_t`,
int64) and labels (int64) are `Int`; bytes of the metadata image are `Nat`
values < 256.  The external Lance engine is a black box: its outputs
(labels, search hits, error outcomes) are universally quantified inputs to
the embedded operations.
-/

namespace LanceDB

/- Host row identifiers (`row_t`) and engine-assigned labels (`int64_t`)
are signed 64-bit integers in the source, modelled as `Int`. -/
/-- The `-1` sentinel marking an unassigned/deleted slot of the forward
mapping (`label_to_rowid_`). -/
def SENTINEL : Int := -1

/-! ## The reverse mapping `rowid_to_label_` (an `unordered_map<row_t, int64_t>`)

Modelled as an association list with at most one entry per key; `rinsert`
replaces an existing binding (`operator[]` assignment), `rerase` removes the
binding (`erase`), `rlookup` is `find`. -/
/-- `rowid_to_label_.find(r)`. -/
def rlookup (m : List (Int × Int)) (r : Int) : Option Int :=
  (m.find? (fun p => p.1 == r)).map (fun p => p.2)

/-- `rowid_to_label_.erase(r)`. -/
def rerase (m : List (Int × Int)) (r : Int) : List (Int × Int) :=
  m.filter (fun p => p.1 != r)

/-- `rowid_to_label_[r] = l` (insert-or-assign). -/
def rinsert (m : List (Int × Int)) (r : Int) (l : Int) :
    List (Int × Int) :=
  (r, l) :: rerase m r

/-! ## The forward mapping `label_to_rowid_` (a `vector<row_t>`)

A dense array indexed by label; slots hold the row id, or `-1` for
unassigned/deleted. -/
/-- The per-row bookkeeping of `LanceIndex::Append` / `MergeIndexes`:
`if ((idx_t)label >= size) label_to_rowid_.resize(label + 1, -1);
label_to_rowid_[label] = row_id;` -/
def writeSlot (fwd : List Int) (l : Nat) (r : Int) : List Int :=
  (if fwd.length ≤ l then fwd ++ List.replicate (l + 1 - fwd.length) SENTINEL
   else fwd).set l r

/-! ## The index state (`LanceIndex` member fields)

Strings (`table_name_`, `metric_`, `lance_path_`) are byte lists (each
element < 256 in well-formed states) because the persistence codec
serializes them byte-wise. `has_handle` models `rust_handle_ != nullptr`. -/
structure LanceIndexState where
  name : List Nat
  label_to_rowid : List Int
  rowid_to_label : List (Int × Int)
  dimension : Int
  nprobes : Int
  refine_factor : Int
  metric : List Nat
  table_name : List Nat
  lance_path : List Nat
  has_pending_deletes : Bool
  is_dirty : Bool
  has_handle : Bool
  deriving Repr, DecidableEq

/-- A freshly constructed `LanceIndex` before any option parsing:
the member initializers of the class. -/
def initialState (name : List Nat) : LanceIndexState where
  name := name
  label_to_rowid := []
  rowid_to_label := []
  dimension := 0
  nprobes := 20
  refine_factor := 1
  metric := [108, 50]   -- "l2"
  table_name := []
  lance_path := []
  has_pending_deletes := false
  is_dirty := false
  has_handle := false

/-! ## Append / MergeIndexes mapping updates -/
/-- One iteration of the mapping-update loop shared by `LanceIndex::Append`
(lines 372–382) and `LanceIndex::MergeIndexes` (lines 652–666, 707–716):
extend the forward array to cover the label and write the row id, then
insert the reverse entry. The loop only runs for engine-assigned labels,
which are non-negative; the `Int.toNat` models the `(idx_t)label` cast on
that domain. -/
def applyRow (fwd : List Int) (rev : List (Int × Int)) (r : Int)
    (l : Int) : List Int × List (Int × Int) :=
  (writeSlot fwd l.toNat r, rinsert rev r l)

/-- The full mapping-update loop over the (row id, label) pairs returned by
the batched engine call, in input order. -/
def applyMappingPairs (fwd : List Int) (rev : List (Int × Int)) :
    List (Int × Int) → List Int × List (Int × Int)
  | [] => (fwd, rev)
  | (r, l) :: ps =>
    let frl := applyRow fwd rev r l
    applyMappingPairs frl.1 frl.2 ps

/-- Engine call outcome: `ok` carries the engine's output, `err` models the
FFI failure sentinel, which the typed wrapper (src/rust_ffi.cpp) turns into
a thrown `IOException`. -/
inductive EngineResult (α : Type) where
  | ok (val : α)
  | err
  deriving Repr, DecidableEq

/-- `LanceIndex::Append` (src/lance_index.cpp:276–386) at the level of the
index state. `rows` are the incoming row identifiers, `eng` the outcome of
the single batched `LanceDetachedAddBatch`/`LanceDetachedAddBatchArrow`
call (on success, one label per input row, in input order). Returns the
post-call state and whether the call succeeded (an `err` outcome throws,
leaving the mapping untouched; the lazily opened engine handle remains
open). Empty input returns success without touching anything. -/
def appendOp (s : LanceIndexState) (rows : List Int)
    (eng : EngineResult (List Int)) : LanceIndexState × Bool :=
  if rows.length = 0 then (s, true)
  else
    match eng with
    | .err => ({ s with has_handle := true }, false)
    | .ok labels =>
      let fr := applyMappingPairs s.label_to_rowid s.rowid_to_label
        (rows.zip labels)
      ({ s with label_to_rowid := fr.1, rowid_to_label := fr.2,
                has_handle := true, is_dirty := true }, true)

/-! ## Delete -/
/-- The resolution loop of `LanceIndex::Delete` (lines 406–420): walk the
requested row ids, skip those with no reverse entry, and for the rest mark
the forward slot deleted, erase the reverse entry, and collect the label
for the batched engine delete. Returns (forward, reverse, labels to
delete). -/
def deleteResolve (fwd : List Int) (rev : List (Int × Int)) :
    List Int → List Int × List (Int × Int) × List Int
  | [] => (fwd, rev, [])
  | r :: rs =>
    match rlookup rev r with
    | none => deleteResolve fwd rev rs
    | some l =>
      let fwd' := if 0 ≤ l ∧ l.toNat < fwd.length then fwd.set l.toNat SENTINEL
                  else fwd
      let rest := deleteResolve fwd' (rerase rev r) rs
      (rest.1, rest.2.1, l :: rest.2.2)

/-- `LanceIndex::Delete` (src/lance_index.cpp:392–429). The engine delete
batch is issued only when the handle exists and some row resolved;
`engineOk` is its outcome (failure throws `IOException` *after* the mapping
updates have been applied, skipping the `has_pending_deletes_` and
`is_dirty_` assignments). Returns the post state, whether an engine delete
call was made, and whether the operation completed without error. -/
def deleteOp (s : LanceIndexState) (rows : List Int) (engineOk : Bool) :
    LanceIndexState × Bool × Bool :=
  if rows.length = 0 then (s, false, true)
  else
    let res := deleteResolve s.label_to_rowid s.rowid_to_label rows
    let s' := { s with label_to_rowid := res.1, rowid_to_label := res.2.1 }
    if s.has_handle ∧ res.2.2 ≠ [] then
      if engineOk then
        ({ s' with has_pending_deletes := true, is_dirty := true }, true, true)
      else
        (s', true, false)
    else
      ({ s' with is_dirty := true }, false, true)

/-! ## MergeIndexes -/
/-- The live entries of a forward mapping starting at label `i`. -/
def liveEntriesFrom (i : Nat) : List Int → List (Nat × Int)
  | [] => []
  | r :: rest =>
    if r ≠ SENTINEL then (i, r) :: liveEntriesFrom (i + 1) rest
    else liveEntriesFrom (i + 1) rest

/-- The live entries of a forward mapping: pairs (label, row id) whose slot
is not the `-1` sentinel, in label order — the enumeration loop at
src/lance_index.cpp:632–637 (and the equivalent filter at 686–699). -/
def liveEntries (fwd : List Int) : List (Nat × Int) :=
  liveEntriesFrom 0 fwd

/-- `LanceIndex::MergeIndexes` (src/lance_index.cpp:620–722) at the mapping
level. If either handle is missing the merge is a mapping no-op that only
sets the dirty flag. Otherwise the other index's live row ids are imported:
the engine assigns each a fresh label (`newLabels`, one per live entry, in
order — via `LanceDetachedMerge` on the multi-column path or
`LanceDetachedAddBatch` on the vector-only path), and the same per-pair
update loop as Append records them. -/
def mergeOp (s : LanceIndexState) (otherFwd : List Int)
    (otherHasHandle : Bool) (newLabels : List Int) : LanceIndexState :=
  if ¬s.has_handle ∨ ¬otherHasHandle then { s with is_dirty := true }
  else
    let pairs := ((liveEntries otherFwd).map (fun p => p.2)).zip newLabels
    let fr := applyMappingPairs s.label_to_rowid s.rowid_to_label pairs
    { s with label_to_rowid := fr.1, rowid_to_label := fr.2, is_dirty := true }

/-! ## Vacuum -/
/-- `LanceIndex::Vacuum` (src/lance_index.cpp:724–731). Returns the post
state and whether the engine compaction call (`LanceDetachedCompact`) was
issued. -/
def vacuumOp (s : LanceIndexState) : LanceIndexState × Bool :=
  if ¬s.has_pending_deletes ∨ ¬s.has_handle then (s, false)
  else ({ s with has_pending_deletes := false, is_dirty := true }, true)

/-! ## Search

Distances are opaque pass-through values from the engine (floats in the
source; no arithmetic is performed on them here), modelled as `Int`
tokens. -/
/-- The label-translation loop of `LanceIndex::Search`
(src/lance_index.cpp:458–467): each engine hit `(label, distance)` is kept,
in order, iff the label is within the forward array's bounds, and is
translated through the forward mapping. -/
def searchTranslate (fwd : List Int) : List (Int × Int) → List (Int × Int)
  | [] => []
  | (l, d) :: rest =>
    if h : 0 ≤ l ∧ l.toNat < fwd.length then
      (fwd.get ⟨l.toNat, h.2⟩, d) :: searchTranslate fwd rest
    else
      searchTranslate fwd rest

/-- `LanceIndex::Search` (src/lance_index.cpp:446–468): empty result when
the handle is missing or the query dimension mismatches; otherwise one
engine search call whose hits (`engineHits`) are translated through the
forward mapping. -/
def searchOp (s : LanceIndexState) (queryDim : Int)
    (engineHits : List (Int × Int)) : List (Int × Int) :=
  if ¬s.has_handle ∨ queryDim ≠ s.dimension then []
  else searchTranslate s.label_to_rowid engineHits

/-! ## Index-name sanitization and backing path -/
/-- Allowed byte test of `SanitizeIndexName` (src/lance_index.cpp:36):
`[a-z]`, `[A-Z]`, `[0-9]`, `_` (95), `-` (45). -/
def allowedByte (c : Nat) : Bool :=
  (97 ≤ c ∧ c ≤ 122) ∨ (65 ≤ c ∧ c ≤ 90) ∨ (48 ≤ c ∧ c ≤ 57) ∨ c = 95 ∨ c = 45

/-- The bytes of the fallback name `"lance_idx"`. -/
def lanceIdxFallback : List Nat := [108, 97, 110, 99, 101, 95, 105, 100, 120]

/-- `SanitizeIndexName` (src/lance_index.cpp:32–46): keep allowed bytes,
replace every other byte with `_`, and substitute `"lance_idx"` for an
empty result. -/
def sanitizeIndexName (name : List Nat) : List Nat :=
  let result := name.map (fun c => if allowedByte c then c else 95)
  if result.length = 0 then lanceIdxFallback else result

/-- The bytes of `".lance/"`. -/
def lanceDirSuffix : List Nat := [46, 108, 97, 110, 99, 101, 47]

/-- `LanceIndex::GetLancePath` (src/lance_index.cpp:200–214). `cached` is
the memoized `lance_path_`; `tempPath` abstracts `MakeUniqueTempPath`
(process id and stack-address token, used only for in-memory databases with
an empty `db_path`). -/
def getLancePath (cached dbPath name tempPath : List Nat) : List Nat :=
  if cached.length ≠ 0 then cached
  else if dbPath.length = 0 then tempPath
  else dbPath ++ lanceDirSuffix ++ sanitizeIndexName name

/-! ## Metadata codec

`PersistToDisk` (src/lance_index.cpp:488–528) writes a flat byte stream
through the `LinkedBlockWriter`; `LoadFromStorage` (530–583) reads it back
through the `LinkedBlockReader`. Multi-byte integers are `memcpy`ed on a
little-endian host; a short read (`LinkedBlockReader::Read` hitting the end
of the chain) copies only the available bytes and leaves the remaining
destination bytes at their previous (zero-initialized) values — the return
count is never checked by `LoadFromStorage`. -/
/-- Little-endian byte encoding of a natural number, `len` bytes. -/
def natToBytes : Nat → Nat → List Nat
  | 0, _ => []
  | len + 1, n => n % 256 :: natToBytes len (n / 256)

/-- Little-endian byte decoding. -/
def bytesToNat : List Nat → Nat
  | [] => 0
  | b :: bs => b + 256 * bytesToNat bs

/-- Two's-complement little-endian encoding of a signed integer in `len`
bytes (the memory image of `int32_t`/`int64_t`/`row_t` on the host). -/
def intToBytes (len : Nat) (i : Int) : List Nat :=
  natToBytes len (i % ((2 : Int) ^ (8 * len))).toNat

/-- Two's-complement interpretation of a `len`-byte little-endian value. -/
def natToInt (len : Nat) (n : Nat) : Int :=
  if n < 2 ^ (8 * len - 1) then (n : Int) else (n : Int) - 2 ^ (8 * len)

/-- `LinkedBlockReader::Read` into a destination whose current memory image
is `old`: copies `min old.length avail.length` bytes and leaves the tail of
the destination unchanged; returns the new destination image and the
remaining stream. -/
def readWithOld (old : List Nat) (avail : List Nat) : List Nat × List Nat :=
  (avail.take old.length ++ old.drop (min old.length avail.length),
   avail.drop old.length)

/-- Read a `uint32_t` local initialized to `0`. -/
def readU32 (b : List Nat) : Nat × List Nat :=
  let rw := readWithOld (natToBytes 4 0) b
  (bytesToNat rw.1, rw.2)

/-- Read a `uint64_t` local initialized to `0`. -/
def readU64 (b : List Nat) : Nat × List Nat :=
  let rw := readWithOld (natToBytes 8 0) b
  (bytesToNat rw.1, rw.2)

/-- Read an `int32_t` member whose pre-read value is `old`. -/
def readI32 (old : Int) (b : List Nat) : Int × List Nat :=
  let rw := readWithOld (intToBytes 4 old) b
  (natToInt 4 (bytesToNat rw.1), rw.2)

/-- Read `len` bytes into a zero-initialized `vector<char>(len)`. -/
def readStr (len : Nat) (b : List Nat) : List Nat × List Nat :=
  readWithOld (List.replicate len 0) b

/-- Reinterpret a byte buffer as `row_t` values, 8 bytes each. -/
def chunkToInts : Nat → List Nat → List Int
  | 0, _ => []
  | k + 1, bs => natToInt 8 (bytesToNat (bs.take 8)) :: chunkToInts k (bs.drop 8)

/-- Bulk-read `n` `row_t` entries into a freshly `resize(n)`d
(zero-initialized) vector. -/
def readRowids (n : Nat) (b : List Nat) : List Int × List Nat :=
  let rw := readWithOld (List.replicate (8 * n) 0) b
  (chunkToInts n rw.1, rw.2)

/-- The byte stream written by `LanceIndex::PersistToDisk`
(src/lance_index.cpp:497–525), in order: length-prefixed table name (with
the `SanitizeIndexName(name)` fallback when `table_name_` is empty),
forward-mapping length and raw entries, dimension, probe count, refine
factor, length-prefixed metric, length-prefixed backing path (by this point
`lance_path_` caches `GetLancePath()`). -/
def persistEncode (s : LanceIndexState) : List Nat :=
  let tn := if s.table_name.length = 0 then sanitizeIndexName s.name
            else s.table_name
  natToBytes 4 tn.length ++ tn ++
  natToBytes 8 s.label_to_rowid.length ++
  (s.label_to_rowid.map (intToBytes 8)).flatten ++
  intToBytes 4 s.dimension ++ intToBytes 4 s.nprobes ++
  intToBytes 4 s.refine_factor ++
  natToBytes 4 s.metric.length ++ s.metric ++
  natToBytes 4 s.lance_path.length ++ s.lance_path

/-- `LanceIndex::PersistToDisk` including its guard (line 489): a clean or
handle-less index writes nothing; otherwise the stream is written and the
dirty flag cleared. -/
def persistToDisk (s : LanceIndexState) : LanceIndexState × Option (List Nat) :=
  if ¬s.is_dirty ∨ ¬s.has_handle then (s, none)
  else ({ s with is_dirty := false }, some (persistEncode s))

/-- The reverse-mapping rebuild loop of `LoadFromStorage`
(src/lance_index.cpp:573–577), from label `i` onward with accumulator
`m`. -/
def rebuildReverseFrom (m : List (Int × Int)) (i : Nat) :
    List Int → List (Int × Int)
  | [] => m
  | r :: rest =>
    rebuildReverseFrom (if r ≠ SENTINEL then rinsert m r (i : Int) else m)
      (i + 1) rest

/-- Rebuild `rowid_to_label_` from the loaded forward mapping, skipping
`-1` slots. -/
def rebuildReverse (fwd : List Int) : List (Int × Int) :=
  rebuildReverseFrom [] 0 fwd

/-- `LanceIndex::LoadFromStorage` (src/lance_index.cpp:530–583) applied to
the byte stream `avail` readable from the linked-block chain, on the index
state `s` as left by the constructor. Every read is unchecked: a stream
shorter than the declared payload silently yields zero-filled tails. The
engine handle is reopened from the decoded path (`LanceOpenDetached`). -/
def loadFromStorage (s : LanceIndexState) (avail : List Nat) :
    LanceIndexState :=
  let rtn := readU32 avail
  let rtns := readStr rtn.1 rtn.2
  let rnm := readU64 rtns.2
  let rfwd := readRowids rnm.1 rnm.2
  let rdim := readI32 s.dimension rfwd.2
  let rnp := readI32 s.nprobes rdim.2
  let rrf := readI32 s.refine_factor rnp.2
  let rml := readU32 rrf.2
  let rms := readStr rml.1 rml.2
  let rpl := readU32 rms.2
  let rps := readStr rpl.1 rpl.2
  { s with table_name := rtns.1,
           label_to_rowid := rfwd.1,
           dimension := rdim.1,
           nprobes := rnp.1,
           refine_factor := rrf.1,
           metric := rms.1,
           lance_path := rps.1,
           rowid_to_label := rebuildReverse rfwd.1,
           has_handle := true,
           is_dirty := false }

/-! ## The mapping bijection invariant

`freshBatch` captures the engine/host contract under which the bookkeeping
loops run: row identifiers handed to `Append` are non-negative (`row_t`
values of live rows) and not currently indexed, and engine-assigned labels
are non-negative and fresh (either beyond the forward array or a slot the
engine has never handed out, still holding the `-1` sentinel), sequentially
along the batch. -/
/-- Freshness of one (row id, label) pair against the current mapping,
followed by freshness of the rest against the updated mapping. -/
def freshBatch (fwd : List Int) (rev : List (Int × Int)) :
    List (Int × Int) → Bool
  | [] => true
  | (r, l) :: ps =>
    decide (0 ≤ l) &&
    (decide (fwd.length ≤ l.toNat) || fwd[l.toNat]? == some SENTINEL) &&
    decide (0 ≤ r) && (rlookup rev r == none) &&
    (let fr := applyRow fwd rev r l
     freshBatch fr.1 fr.2 ps)

/-- The mapping bijection: live forward slots round-trip through the
reverse mapping, and reverse entries round-trip through the forward
array. -/
def MappingInv (fwd : List Int) (rev : List (Int × Int)) : Prop :=
  (∀ (l : Nat) (r : Int), fwd[l]? = some r → r ≠ SENTINEL →
    rlookup rev r = some (l : Int)) ∧
  (∀ (r : Int) (l : Int), rlookup rev r = some l →
    0 ≤ l ∧ fwd[l.toNat]? = some r)

/-- Internal strengthening of `MappingInv`: every reverse entry (not just
every `rlookup`-reachable one) round-trips, and reverse keys are
non-negative row ids. -/
def InvAux (fwd : List Int) (rev : List (Int × Int)) : Prop :=
  (∀ (l : Nat) (r : Int), fwd[l]? = some r → r ≠ SENTINEL →
    rlookup rev r = some (l : Int)) ∧
  (∀ p ∈ rev, 0 ≤ p.1 ∧ 0 ≤ p.2 ∧ fwd[p.2.toNat]? = some p.1)

/-- Index states reachable from a fresh index by any sequence of Append
(successful or failed engine batch; fresh, distinct, non-negative row ids;
fresh engine labels), Delete (any row-id batch, any engine outcome), and
MergeIndexes (another index's live row ids, disjoint from this index's, with
fresh engine labels). -/
inductive Reachable : LanceIndexState → Prop
  | init (name : List Nat) : Reachable (initialState name)
  | append (s : LanceIndexState) (rows labels : List Int)
      (hs : Reachable s)
      (hfresh : freshBatch s.label_to_rowid s.rowid_to_label
        (rows.zip labels) = true) :
      Reachable (appendOp s rows (.ok labels)).1
  | appendFail (s : LanceIndexState) (rows : List Int) (hs : Reachable s) :
      Reachable (appendOp s rows .err).1
  | delete (s : LanceIndexState) (rows : List Int) (engineOk : Bool)
      (hs : Reachable s) :
      Reachable (deleteOp s rows engineOk).1
  | merge (s : LanceIndexState) (otherFwd : List Int) (otherHasHandle : Bool)
      (newLabels : List Int) (hs : Reachable s)
      (hfresh : freshBatch s.label_to_rowid s.rowid_to_label
        (((liveEntries otherFwd).map (fun p => p.2)).zip newLabels) = true) :
      Reachable (mergeOp s otherFwd otherHasHandle newLabels)

/-! ## The optimizer rewrite (src/lance_optimizer.cpp)

`LanceOptimizerExtension::TryRewrite` recurses into children, then matches
`LIMIT → ORDER → [FILTER →] [PROJECTION →] GET` and replaces the subtree
with a `lance_index_scan` data source, pushing translatable filter
conjuncts into the engine predicate string. Query-vector elements are
floats in the source, passed through untouched; they are opaque `Int`
tokens here. Float/double constants in predicates carry their
`Value::ToString()` rendering as an opaque string. -/
/-- `duckdb::LimitNodeType` together with the constant payload. -/
inductive LimitVal where
  | unset
  | constVal (v : Nat)
  | constPct (v : Nat)
  | exprVal
  | exprPct
  deriving Repr, DecidableEq

/-- `duckdb::OrderType` (the rewrite only distinguishes `DESCENDING`). -/
inductive OrderKind where
  | ascending
  | descending
  | orderDefault
  deriving Repr, DecidableEq

/-- Whether a constant query value is an `ARRAY` or a `LIST`. -/
inductive VecKind where
  | arrayK
  | listK
  deriving Repr, DecidableEq

/-- The ORDER BY expression shapes the matcher inspects. -/
inductive OExpr where
  | colRef (columnIndex : Nat)
  | constVec (kind : VecKind) (xs : List Int)
  | constScalar
  | func (fname : String) (args : List OExpr)
  | otherE

/-- Constant values as classified by `FormatConstant`
(src/lance_optimizer.cpp:138–180); `floatV`/`doubleV` carry the
`Value::ToString()` rendering. -/
inductive CVal where
  | nullV
  | varcharV (s : String)
  | int32V (i : Int)
  | int64V (i : Int)
  | floatV (render : String)
  | doubleV (render : String)
  | boolV (b : Bool)
  | otherV
  deriving Repr, DecidableEq

/-- Comparison expression types (`ComparisonOperator`,
src/lance_optimizer.cpp:183–200; `cmpOther` covers the default case). -/
inductive CmpTy where
  | eqC | neqC | ltC | gtC | leC | geC | cmpOther
  deriving Repr, DecidableEq

/-- Filter expressions as classified by `ExpressionToLancePredicate`
(src/lance_optimizer.cpp:204–344). -/
inductive FExpr where
  | cmp (ty : CmpTy) (lhs rhs : FExpr)
  | conj (isAnd : Bool) (children : List FExpr)
  | isNullOp (neg : Bool) (children : List FExpr)
  | notOp (children : List FExpr)
  | inOp (neg : Bool) (children : List FExpr)
  | between (inp lower upper : FExpr) (lowInc highInc : Bool)
  | colRef (columnIndex : Nat)
  | constE (v : CVal)
  | otherE

/-- A LANCE index as seen through the table's index list during the
catalog scan (src/lance_optimizer.cpp:515–541). -/
structure CatalogIndex where
  indexType : String
  iname : String
  columns : List Nat
  metric : String
  deriving Repr, DecidableEq

/-- The `LogicalGet` context: column-binding-to-physical map
(`GetColumnIds`), physical column names, whether the table is a DuckDB
table, and its index list. -/
structure GetInfo where
  tableIndex : Nat
  columnIds : List Nat
  columnNames : List String
  isDuckTable : Bool
  indexes : List CatalogIndex
  deriving Repr, DecidableEq

/-- `LanceIndexScanBindData` as filled by the rewrite. -/
structure BindData where
  indexName : String
  queryVector : List Int
  limit : Nat
  predicate : String
  deriving Repr, DecidableEq

/-- Logical plans, restricted to the operators the rewrite inspects.
`indexScanN` is the replacement `LogicalGet` bound to `lance_index_scan`
(it reuses the original GET's table index and column ids, hence carries
the `GetInfo`). -/
inductive LPlan where
  | limitN (limitVal offsetVal : LimitVal) (children : List LPlan)
  | orderN (orders : List (OrderKind × OExpr)) (children : List LPlan)
  | filterN (exprs : List FExpr) (children : List LPlan)
  | projN (children : List LPlan)
  | getN (g : GetInfo)
  | indexScanN (bd : BindData) (g : GetInfo)
  | otherN (children : List LPlan)

/-- `ResolveColumnName` (src/lance_optimizer.cpp:116–135). -/
def resolveColumnName (g : GetInfo) (columnIndex : Nat) : Option String :=
  match g.columnIds[columnIndex]? with
  | none => none
  | some physical => g.columnNames[physical]?

/-- The single-quote character. -/
def squote : Char := Char.ofNat 39

/-- Escape and quote a varchar literal (src/lance_optimizer.cpp:146–160). -/
def escapeVarchar (s : String) : String :=
  String.mk (squote :: s.data.foldr
    (fun c acc => if c = squote then squote :: squote :: acc else c :: acc)
    [squote])

/-- `FormatConstant` (src/lance_optimizer.cpp:138–180). -/
def formatConstant : CVal → Option String
  | .nullV => some "NULL"
  | .varcharV s => some (escapeVarchar s)
  | .int32V i => some (toString i)
  | .int64V i => some (toString i)
  | .floatV render => some render
  | .doubleV render => some render
  | .boolV b => some (if b then "true" else "false")
  | .otherV => none

/-- `ComparisonOperator` (src/lance_optimizer.cpp:183–200). -/
def comparisonOperator : CmpTy → Option String
  | .eqC => some "="
  | .neqC => some "!="
  | .ltC => some "<"
  | .gtC => some ">"
  | .leC => some "<="
  | .geC => some ">="
  | .cmpOther => none

/-- One side of a comparison: a column reference or a constant
(src/lance_optimizer.cpp:217–227). -/
def cmpSide (g : GetInfo) : FExpr → Option String
  | .colRef ci => resolveColumnName g ci
  | .constE v => formatConstant v
  | _ => none

/-- The IN-list values: every element must be a formattable constant
(src/lance_optimizer.cpp:297–310). -/
def formatInList : List FExpr → Option (List String)
  | [] => some []
  | .constE v :: rest =>
    match formatConstant v with
    | none => none
    | some s =>
      match formatInList rest with
      | none => none
      | some ss => some (s :: ss)
  | _ => none

mutual
/-- `ExpressionToLancePredicate` (src/lance_optimizer.cpp:204–344):
`some` is a successful translation into the engine's predicate syntax,
`none` means the conjunct is not pushable. -/
def exprToLancePredicate (g : GetInfo) : FExpr → Option String
  | .cmp ty lhs rhs =>
    match comparisonOperator ty with
    | none => none
    | some op =>
      match cmpSide g lhs, cmpSide g rhs with
      | some ls, some rs => some (ls ++ " " ++ op ++ " " ++ rs)
      | _, _ => none
  | .conj isAnd children =>
    match translateConjList g isAnd children with
    | none => none
    | some parts =>
      some (String.intercalate (if isAnd then " AND " else " OR ") parts)
  | .isNullOp neg children =>
    match children with
    | [.colRef ci] =>
      match resolveColumnName g ci with
      | none => none
      | some col => some (col ++ if neg then " IS NOT NULL" else " IS NULL")
    | _ => none
  | .notOp children =>
    match children with
    | [child] =>
      match exprToLancePredicate g child with
      | none => none
      | some sql => some ("NOT (" ++ sql ++ ")")
    | _ => none
  | .inOp neg children =>
    match children with
    | .colRef ci :: rest =>
      if rest.isEmpty then none
      else
        match resolveColumnName g ci with
        | none => none
        | some col =>
          match formatInList rest with
          | none => none
          | some vals =>
            some (col ++ (if neg then " NOT IN (" else " IN (") ++
              String.intercalate ", " vals ++ ")")
    | _ => none
  | .between inp lower upper lowInc highInc =>
    match inp with
    | .colRef ci =>
      match resolveColumnName g ci with
      | none => none
      | some col =>
        match lower, upper with
        | .constE lv, .constE uv =>
          match formatConstant lv, formatConstant uv with
          | some ls, some us =>
            some (col ++ " " ++ (if lowInc then ">=" else ">") ++ " " ++ ls ++
              " AND " ++ col ++ " " ++ (if highInc then "<=" else "<") ++
              " " ++ us)
          | _, _ => none
        | _, _ => none
    | _ => none
  | _ => none

/-- Translate every conjunction child, wrapping OR children in
parentheses (src/lance_optimizer.cpp:241–255); `none` if any child fails. -/
def translateConjList (g : GetInfo) (isAnd : Bool) :
    List FExpr → Option (List String)
  | [] => some []
  | e :: es =>
    match exprToLancePredicate g e with
    | none => none
    | some sql =>
      match translateConjList g isAnd es with
      | none => none
      | some rest => some ((if isAnd then sql else "(" ++ sql ++ ")") :: rest)
end

mutual
/-- `LogicalFilter::SplitPredicates`: recursively split AND conjunctions
into their conjuncts (applied at src/lance_optimizer.cpp:559). -/
def splitConjAnd : FExpr → List FExpr
  | .conj true cs => splitConjAndList cs
  | e => [e]

def splitConjAndList : List FExpr → List FExpr
  | [] => []
  | e :: es => splitConjAnd e ++ splitConjAndList es
end

/-- Split every filter expression. -/
def splitPredicates (es : List FExpr) : List FExpr :=
  splitConjAndList es

/-- The pushdown loop (src/lance_optimizer.cpp:564–576): translated
conjuncts accumulate into the pushed predicate, untranslatable ones stay,
both in input order. -/
def partitionPredicates (g : GetInfo) :
    List FExpr → List String × List FExpr
  | [] => ([], [])
  | e :: es =>
    let rest := partitionPredicates g es
    match exprToLancePredicate g e with
    | some sql => (sql :: rest.1, rest.2)
    | none => (rest.1, e :: rest.2)

/-- `IsArrayDistanceFunction` (src/lance_optimizer.cpp:350–357). -/
def isArrayDistanceFunction : OExpr → Bool
  | .func n _ =>
    n == "array_distance" || n == "array_cosine_distance" ||
    n == "array_inner_product"
  | _ => false

/-- `DistanceFunctionToMetric` (src/lance_optimizer.cpp:360–371). -/
def distanceFunctionToMetric (n : String) : String :=
  if n == "array_distance" then "l2"
  else if n == "array_cosine_distance" then "cosine"
  else if n == "array_inner_product" then "dot"
  else ""

/-- The offset bail-out (src/lance_optimizer.cpp:403): only a constant
offset greater than zero blocks the rewrite. -/
def offsetBlocksRewrite : LimitVal → Bool
  | .constVal v => decide (0 < v)
  | _ => false

/-- The query-vector extraction (src/lance_optimizer.cpp:433–453): the
second distance argument must be a constant of ARRAY or LIST type. -/
def extractQueryVector : OExpr → Option (List Int)
  | .constVec _ xs => some xs
  | _ => none

/-- Resolution of the scanned physical column from the distance function's
first argument (src/lance_optimizer.cpp:501–510); `none` models
`DConstants::INVALID_INDEX`. -/
def resolveTargetColumn (g : GetInfo) : OExpr → Option Nat
  | .colRef ci => g.columnIds[ci]?
  | _ => none

/-- One step of the index scan over the table's index list
(src/lance_optimizer.cpp:515–541): LANCE type, matching column,
compatible metric ("dot" and "ip" are synonyms). -/
def indexMatches (target : Option Nat) (expected : String)
    (idx : CatalogIndex) : Bool :=
  idx.indexType == "LANCE" &&
  (match target with
   | some c => idx.columns.contains c
   | none => false) &&
  (idx.metric == expected || (idx.metric == "ip" && expected == "dot") ||
   (idx.metric == "dot" && expected == "ip"))

/-- The first matching LANCE index's name, if any. -/
def findLanceIndex (idxs : List CatalogIndex) (target : Option Nat)
    (expected : String) : Option String :=
  (idxs.find? (indexMatches target expected)).map (fun i => i.iname)

/-- Assemble the replacement subtree (src/lance_optimizer.cpp:586–623)
once the pattern has matched: `filterKept` carries the filter node's
remaining expressions when the filter is not fully pushed. -/
def assembleRewrite (bd : BindData) (g : GetInfo)
    (filterKept : Option (List FExpr)) (hasProj : Bool) : LPlan :=
  match filterKept with
  | some remaining =>
    if hasProj then .filterN remaining [.projN [.indexScanN bd g]]
    else .filterN remaining [.indexScanN bd g]
  | none =>
    if hasProj then .projN [.indexScanN bd g]
    else .indexScanN bd g

/-- The walk from ORDER's child to the GET
(src/lance_optimizer.cpp:464–481): an optional FILTER, then GET or
PROJECTION→GET. Returns (filter expressions if a filter is present, GET
info, whether a projection intervenes), or `none` when no GET is found. -/
def walkToGet (walk : LPlan) : Option (Option (List FExpr) × GetInfo × Bool) :=
  let fw : Option (List FExpr) × Option LPlan :=
    match walk with
    | .filterN fexprs fchildren => (some fexprs, fchildren.head?)
    | w => (none, some w)
  match fw.2 with
  | none => none
  | some w2 =>
    match w2 with
    | .getN g => some (fw.1, g, false)
    | .projN pchildren =>
      match pchildren.head? with
      | some (.getN g) => some (fw.1, g, true)
      | _ => none
    | _ => none

/-- The post-recursion body of `TryRewrite`
(src/lance_optimizer.cpp:390–623): match the pattern rooted at this
operator and rewrite it, or return it unchanged. -/
def tryRewriteStep (op : LPlan) : LPlan :=
  match op with
  | .limitN lv ov children =>
    match lv with
    | .constVal k =>
      if offsetBlocksRewrite ov then op
      else
        match children.head? with
        | some (.orderN orders ochildren) =>
          match orders with
          | [(okind, oexpr)] =>
            if okind = .descending then op
            else if ¬isArrayDistanceFunction oexpr then op
            else
              match oexpr with
              | .func fname fargs =>
                match fargs with
                | [arg1, arg2] =>
                  match extractQueryVector arg2 with
                  | none => op
                  | some xs =>
                    if xs.isEmpty then op
                    else
                      match ochildren.head? with
                      | none => op
                      | some walk =>
                        match walkToGet walk with
                        | none => op
                        | some (filterOpt, g, hasProj) =>
                          if ¬g.isDuckTable then op
                          else
                            match findLanceIndex g.indexes
                              (resolveTargetColumn g arg1)
                              (distanceFunctionToMetric fname) with
                            | none => op
                            | some idxName =>
                              match filterOpt with
                              | some fexprs =>
                                if fexprs.isEmpty then
                                  assembleRewrite
                                    ⟨idxName, xs, k, ""⟩ g (some fexprs) hasProj
                                else
                                  let pr := partitionPredicates g
                                    (splitPredicates fexprs)
                                  let bd : BindData :=
                                    ⟨idxName, xs, k,
                                     String.intercalate " AND " pr.1⟩
                                  if pr.2.isEmpty then
                                    assembleRewrite bd g none hasProj
                                  else
                                    assembleRewrite bd g (some pr.2) hasProj
                              | none =>
                                assembleRewrite ⟨idxName, xs, k, ""⟩ g none
                                  hasProj
                | _ => op
              | _ => op
          | _ => op
        | _ => op
    | _ => op
  | _ => op

mutual
/-- `TryRewrite` (src/lance_optimizer.cpp:384–624): children first, then
the match at this node. -/
def tryRewrite : LPlan → LPlan
  | .limitN lv ov cs => tryRewriteStep (.limitN lv ov (tryRewriteList cs))
  | .orderN os cs => tryRewriteStep (.orderN os (tryRewriteList cs))
  | .filterN fs cs => tryRewriteStep (.filterN fs (tryRewriteList cs))
  | .projN cs => tryRewriteStep (.projN (tryRewriteList cs))
  | .getN g => tryRewriteStep (.getN g)
  | .indexScanN bd g => tryRewriteStep (.indexScanN bd g)
  | .otherN cs => tryRewriteStep (.otherN (tryRewriteList cs))

def tryRewriteList : List LPlan → List LPlan
  | [] => []
  | p :: ps => tryRewrite p :: tryRewriteList ps
end


theorem rlookup_nil (r : Int) : rlookup [] r = none := rfl

theorem rlookup_cons (p : Int × Int) (m : List (Int × Int)) (r : Int) :
    rlookup (p :: m) r = if p.1 = r then some p.2 else rlookup m r := by
  by_cases hp : p.1 = r
  · simp only [rlookup, if_pos hp]
    rw [List.find?_cons_of_pos _ (by simp [hp])]
    rfl
  · simp only [rlookup, if_neg hp]
    rw [List.find?_cons_of_neg _ (by simp [hp])]

theorem rerase_cons (p : Int × Int) (m : List (Int × Int)) (r : Int) :
    rerase (p :: m) r = if p.1 = r then rerase m r else p :: rerase m r := by
  by_cases hp : p.1 = r <;> simp [rerase, hp]

theorem rlookup_rerase (m : List (Int × Int)) (r k : Int) :
    rlookup (rerase m r) k = if k = r then none else rlookup m k := by
  induction m with
  | nil => simp [rlookup, rerase]
  | cons p m ih =>
    rw [rerase_cons, rlookup_cons]
    by_cases hp : p.1 = r
    · rw [if_pos hp, ih]
      by_cases hk : k = r
      · simp [hk]
      · have : p.1 ≠ k := fun h => hk (h.symm.trans hp)
        simp [hk, this]
    · rw [if_neg hp, rlookup_cons, ih]
      by_cases hpk : p.1 = k
      · have hk : k ≠ r := fun h => hp (h ▸ hpk)
        simp [hpk, hk]
      · simp [hpk]

theorem rlookup_rinsert (m : List (Int × Int)) (r k : Int) (l : Int) :
    rlookup (rinsert m r l) k = if k = r then some l else rlookup m k := by
  rw [rinsert, rlookup_cons, rlookup_rerase]
  by_cases hk : k = r
  · simp [hk]
  · have : (r, l).1 ≠ k := fun h => hk h.symm
    simp [hk, this]

theorem mem_rerase {m : List (Int × Int)} {r : Int} {p : Int × Int} :
    p ∈ rerase m r ↔ p ∈ m ∧ p.1 ≠ r := by
  simp [rerase, List.mem_filter]

theorem mem_rinsert {m : List (Int × Int)} {r : Int} {l : Int}
    {p : Int × Int} :
    p ∈ rinsert m r l ↔ p = (r, l) ∨ (p ∈ m ∧ p.1 ≠ r) := by
  simp [rinsert, mem_rerase]

theorem rlookup_eq_none_iff {m : List (Int × Int)} {r : Int} :
    rlookup m r = none ↔ ∀ p ∈ m, p.1 ≠ r := by
  simp [rlookup, List.find?_eq_none]

theorem rlookup_mem {m : List (Int × Int)} {r : Int} {l : Int}
    (h : rlookup m r = some l) : (r, l) ∈ m := by
  induction m with
  | nil => simp [rlookup] at h
  | cons p m ih =>
    rw [rlookup_cons] at h
    by_cases hp : p.1 = r
    · rw [if_pos hp] at h
      obtain ⟨p1, p2⟩ := p
      simp only [Option.some_inj] at h
      simp_all
    · rw [if_neg hp] at h
      exact List.mem_cons_of_mem _ (ih h)

theorem length_writeSlot (fwd : List Int) (l : Nat) (r : Int) :
    (writeSlot fwd l r).length = if fwd.length ≤ l then l + 1 else fwd.length := by
  unfold writeSlot
  by_cases h : fwd.length ≤ l
  · simp [h]; omega
  · simp [h]

theorem getElem?_writeSlot_self (fwd : List Int) (l : Nat) (r : Int) :
    (writeSlot fwd l r)[l]? = some r := by
  unfold writeSlot
  by_cases h : fwd.length ≤ l
  · rw [if_pos h, List.getElem?_set_self]
    simp; omega
  · rw [if_neg h, List.getElem?_set_self]
    omega

theorem getElem?_writeSlot_ne (fwd : List Int) (l j : Nat) (r : Int)
    (hne : j ≠ l) :
    (writeSlot fwd l r)[j]? =
      if j < fwd.length then fwd[j]?
      else if fwd.length ≤ l ∧ j < l + 1 then some SENTINEL
      else none := by
  unfold writeSlot
  by_cases hj : j < fwd.length
  · rw [if_pos hj]
    by_cases h : fwd.length ≤ l
    · rw [if_pos h, List.getElem?_set_ne (fun hc => hne hc.symm),
        List.getElem?_append, if_pos hj]
    · rw [if_neg h, List.getElem?_set_ne (fun hc => hne hc.symm)]
  · rw [if_neg hj]
    by_cases h : fwd.length ≤ l
    · by_cases hj2 : j < l + 1
      · rw [if_pos (And.intro h hj2), if_pos h,
          List.getElem?_set_ne (fun hc => hne hc.symm),
          List.getElem?_append, if_neg hj, List.getElem?_replicate,
          if_pos (by omega)]
      · rw [if_neg (fun hc => hj2 (And.right hc)), if_pos h,
          List.getElem?_set_ne (fun hc => hne hc.symm),
          List.getElem?_append, if_neg hj, List.getElem?_replicate,
          if_neg (by omega)]
    · rw [if_neg (fun hc => h (And.left hc)), if_neg h,
        List.getElem?_set_ne (fun hc => hne hc.symm),
        List.getElem?_eq_none (by omega)]

/-! ### Codec round-trip lemmas -/
theorem length_natToBytes (len n : Nat) : (natToBytes len n).length = len := by
  induction len generalizing n with
  | zero => rfl
  | succ k ih => simp [natToBytes, ih]

theorem bytesToNat_natToBytes (len n : Nat) :
    bytesToNat (natToBytes len n) = n % 256 ^ len := by
  induction len generalizing n with
  | zero => simp [natToBytes, bytesToNat, Nat.mod_one]
  | succ k ih =>
    have h256 : (256 : Nat) ^ (k + 1) = 256 * 256 ^ k := by ring
    rw [natToBytes, bytesToNat, ih, h256, Nat.mod_mul]

theorem length_intToBytes (len : Nat) (i : Int) :
    (intToBytes len i).length = len := by
  simp [intToBytes, length_natToBytes]

theorem natToInt_intToBytes4 (i : Int) (h1 : -(2 ^ 31) ≤ i) (h2 : i < 2 ^ 31) :
    natToInt 4 (bytesToNat (intToBytes 4 i)) = i := by
  have hm : (0 : Int) < 2 ^ (8 * 4) := by norm_num
  have hlo : 0 ≤ i % 2 ^ (8 * 4) := Int.emod_nonneg i (by norm_num)
  have hhi : i % 2 ^ (8 * 4) < 2 ^ (8 * 4) := Int.emod_lt_of_pos i hm
  have hval : i % 2 ^ (8 * 4) = if 0 ≤ i then i else i + 2 ^ (8 * 4) := by
    by_cases h : 0 ≤ i
    · rw [if_pos h]
      exact Int.emod_eq_of_lt h (by omega)
    · rw [if_neg h]
      have : (i + 2 ^ (8 * 4)) % 2 ^ (8 * 4) = i % 2 ^ (8 * 4) :=
        Int.add_mul_emod_self_left (a := i) (b := 2 ^ (8 * 4)) (c := 1) ▸ by
          norm_num
      rw [← this]
      exact Int.emod_eq_of_lt (by omega) (by omega)
  rw [intToBytes, bytesToNat_natToBytes]
  have hpow : (256 : Nat) ^ 4 = 2 ^ 32 := by norm_num
  rw [hpow]
  rw [natToInt]
  norm_num at hval hlo hhi ⊢
  omega

theorem natToInt_intToBytes8 (i : Int) (h1 : -(2 ^ 63) ≤ i) (h2 : i < 2 ^ 63) :
    natToInt 8 (bytesToNat (intToBytes 8 i)) = i := by
  have hm : (0 : Int) < 2 ^ (8 * 8) := by norm_num
  have hlo : 0 ≤ i % 2 ^ (8 * 8) := Int.emod_nonneg i (by norm_num)
  have hhi : i % 2 ^ (8 * 8) < 2 ^ (8 * 8) := Int.emod_lt_of_pos i hm
  have hval : i % 2 ^ (8 * 8) = if 0 ≤ i then i else i + 2 ^ (8 * 8) := by
    by_cases h : 0 ≤ i
    · rw [if_pos h]
      exact Int.emod_eq_of_lt h (by omega)
    · rw [if_neg h]
      have : (i + 2 ^ (8 * 8)) % 2 ^ (8 * 8) = i % 2 ^ (8 * 8) :=
        Int.add_mul_emod_self_left (a := i) (b := 2 ^ (8 * 8)) (c := 1) ▸ by
          norm_num
      rw [← this]
      exact Int.emod_eq_of_lt (by omega) (by omega)
  rw [intToBytes, bytesToNat_natToBytes]
  have hpow : (256 : Nat) ^ 8 = 2 ^ 64 := by norm_num
  rw [hpow]
  rw [natToInt]
  norm_num at hval hlo hhi ⊢
  omega

theorem readWithOld_exact (old xs rest : List Nat) (h : xs.length = old.length) :
    readWithOld old (xs ++ rest) = (xs, rest) := by
  unfold readWithOld
  rw [List.take_left' h, List.drop_left' h]
  have hmin : min old.length (xs ++ rest).length = old.length := by
    simp [List.length_append]
    omega
  rw [hmin, List.drop_length, List.append_nil]

theorem readU32_encode (n : Nat) (rest : List Nat) (h : n < 2 ^ 32) :
    readU32 (natToBytes 4 n ++ rest) = (n, rest) := by
  unfold readU32
  rw [readWithOld_exact _ _ _ (by rw [length_natToBytes, length_natToBytes])]
  show (bytesToNat (natToBytes 4 n), rest) = (n, rest)
  rw [bytesToNat_natToBytes]
  norm_num
  omega

theorem readU64_encode (n : Nat) (rest : List Nat) (h : n < 2 ^ 64) :
    readU64 (natToBytes 8 n ++ rest) = (n, rest) := by
  unfold readU64
  rw [readWithOld_exact _ _ _ (by rw [length_natToBytes, length_natToBytes])]
  show (bytesToNat (natToBytes 8 n), rest) = (n, rest)
  rw [bytesToNat_natToBytes]
  norm_num
  omega

theorem readI32_encode (old i : Int) (rest : List Nat) (h1 : -(2 ^ 31) ≤ i)
    (h2 : i < 2 ^ 31) :
    readI32 old (intToBytes 4 i ++ rest) = (i, rest) := by
  unfold readI32
  rw [readWithOld_exact _ _ _ (by rw [length_intToBytes, length_intToBytes])]
  show (natToInt 4 (bytesToNat (intToBytes 4 i)), rest) = (i, rest)
  rw [natToInt_intToBytes4 i h1 h2]

theorem readStr_exact (xs rest : List Nat) :
    readStr xs.length (xs ++ rest) = (xs, rest) := by
  unfold readStr
  exact readWithOld_exact _ _ _ (by simp)

theorem length_flatten_i64 (l : List Int) :
    ((l.map (intToBytes 8)).flatten).length = 8 * l.length := by
  induction l with
  | nil => simp
  | cons x l ih =>
    simp only [List.map_cons, List.flatten_cons, List.length_append, ih,
      List.length_cons, length_intToBytes]
    ring

theorem chunkToInts_flatten (l : List Int)
    (h : ∀ x ∈ l, -(2 ^ 63) ≤ x ∧ x < 2 ^ 63) :
    chunkToInts l.length ((l.map (intToBytes 8)).flatten) = l := by
  induction l with
  | nil => rfl
  | cons x l ih =>
    simp only [List.map_cons, List.flatten_cons, List.length_cons]
    rw [chunkToInts]
    rw [List.take_left' (length_intToBytes 8 x),
      List.drop_left' (length_intToBytes 8 x)]
    have hx := h x (List.mem_cons_self x l)
    rw [natToInt_intToBytes8 x hx.1 hx.2]
    rw [ih (fun y hy => h y (List.mem_cons_of_mem x hy))]

theorem readRowids_encode (l : List Int) (rest : List Nat)
    (h : ∀ x ∈ l, -(2 ^ 63) ≤ x ∧ x < 2 ^ 63) :
    readRowids l.length ((l.map (intToBytes 8)).flatten ++ rest) = (l, rest) := by
  unfold readRowids
  rw [readWithOld_exact _ _ _ (by rw [length_flatten_i64, List.length_replicate])]
  show (chunkToInts l.length ((l.map (intToBytes 8)).flatten), rest) = (l, rest)
  rw [chunkToInts_flatten l h]

theorem InvAux.toMappingInv {fwd : List Int} {rev : List (Int × Int)}
    (h : InvAux fwd rev) : MappingInv fwd rev := by
  refine ⟨h.1, fun r l hl => ?_⟩
  have hm := h.2 (r, l) (rlookup_mem hl)
  exact ⟨hm.2.1, hm.2.2⟩

theorem InvAux.applyRow {fwd : List Int} {rev : List (Int × Int)}
    {r : Int} {l : Int} (h : InvAux fwd rev) (hl0 : 0 ≤ l)
    (hfree : fwd.length ≤ l.toNat ∨ fwd[l.toNat]? = some SENTINEL)
    (hr0 : 0 ≤ r) (hrnone : rlookup rev r = none) :
    InvAux (LanceDB.applyRow fwd rev r l).1 (LanceDB.applyRow fwd rev r l).2 := by
  obtain ⟨P1, P2⟩ := h
  simp only [LanceDB.applyRow]
  constructor
  · intro j r' hj hr'
    by_cases hjl : j = l.toNat
    · subst hjl
      rw [getElem?_writeSlot_self] at hj
      have hrr : r' = r := by injection hj; omega
      subst hrr
      rw [rlookup_rinsert, if_pos rfl, Int.toNat_of_nonneg hl0]
    · rw [getElem?_writeSlot_ne fwd l.toNat j r hjl] at hj
      by_cases hjlen : j < fwd.length
      · rw [if_pos hjlen] at hj
        have hlook := P1 j r' hj hr'
        have hne : r' ≠ r := by
          intro hc
          rw [hc, hrnone] at hlook
          exact Option.noConfusion hlook
        rw [rlookup_rinsert, if_neg hne]
        exact hlook
      · rw [if_neg hjlen] at hj
        by_cases hext : fwd.length ≤ l.toNat ∧ j < l.toNat + 1
        · rw [if_pos hext] at hj
          injection hj with hj
          exact absurd hj.symm hr'
        · rw [if_neg hext] at hj
          exact Option.noConfusion hj
  · intro p hp
    rw [mem_rinsert] at hp
    rcases hp with hp | ⟨hp, hpne⟩
    · subst hp
      refine ⟨hr0, hl0, ?_⟩
      exact getElem?_writeSlot_self fwd l.toNat r
    · obtain ⟨hk0, hv0, hslot⟩ := P2 p hp
      refine ⟨hk0, hv0, ?_⟩
      by_cases hpl : p.2.toNat = l.toNat
      · exfalso
        rw [hpl] at hslot
        rcases hfree with hlen | hsent
        · have : l.toNat < fwd.length := by
            by_contra hc
            rw [List.getElem?_eq_none (by omega)] at hslot
            exact Option.noConfusion hslot
          omega
        · rw [hsent] at hslot
          injection hslot with hslot
          simp only [SENTINEL] at hslot
          omega
      · rw [getElem?_writeSlot_ne fwd l.toNat p.2.toNat r hpl]
        have hplen : p.2.toNat < fwd.length := by
          by_contra hc
          rw [List.getElem?_eq_none (by omega)] at hslot
          exact Option.noConfusion hslot
        rw [if_pos hplen]
        exact hslot

theorem InvAux.applyMappingPairs {fwd : List Int} {rev : List (Int × Int)}
    (h : InvAux fwd rev) (ps : List (Int × Int))
    (hfresh : freshBatch fwd rev ps = true) :
    InvAux (LanceDB.applyMappingPairs fwd rev ps).1
      (LanceDB.applyMappingPairs fwd rev ps).2 := by
  induction ps generalizing fwd rev with
  | nil => exact h
  | cons p ps ih =>
    obtain ⟨r, l⟩ := p
    simp only [freshBatch, Bool.and_eq_true, decide_eq_true_eq, Bool.or_eq_true,
      beq_iff_eq] at hfresh
    obtain ⟨⟨⟨⟨hl0, hfree⟩, hr0⟩, hrnone⟩, hrest⟩ := hfresh
    have hstep := h.applyRow hl0 (by
      rcases hfree with hfree | hfree
      · exact Or.inl hfree
      · exact Or.inr hfree) hr0 (by
        cases hcase : rlookup rev r with
        | none => rfl
        | some v => rw [hcase] at hrnone; exact absurd hrnone (by simp))
    simp only [LanceDB.applyMappingPairs]
    exact ih hstep hrest

theorem InvAux.deleteResolve {fwd : List Int} {rev : List (Int × Int)}
    (h : InvAux fwd rev) (rows : List Int) :
    InvAux (LanceDB.deleteResolve fwd rev rows).1
      (LanceDB.deleteResolve fwd rev rows).2.1 := by
  induction rows generalizing fwd rev with
  | nil => exact h
  | cons rid rows ih =>
    cases hlook : rlookup rev rid with
    | none =>
      simp only [LanceDB.deleteResolve, hlook]
      exact ih h
    | some l =>
      simp only [LanceDB.deleteResolve, hlook]
      obtain ⟨P1, P2⟩ := h
      obtain ⟨hk0, hl0, hslot⟩ := P2 (rid, l) (rlookup_mem hlook)
      have hllen : l.toNat < fwd.length := by
        by_contra hc
        rw [List.getElem?_eq_none (by omega)] at hslot
        exact Option.noConfusion hslot
      rw [if_pos ⟨hl0, hllen⟩]
      refine ih ⟨?_, ?_⟩
      · intro j r' hj hr'
        by_cases hjl : j = l.toNat
        · subst hjl
          rw [List.getElem?_set_self (by omega)] at hj
          injection hj with hj
          exact absurd hj.symm hr'
        · rw [List.getElem?_set_ne (fun hc => hjl hc.symm)] at hj
          have hlookj := P1 j r' hj hr'
          have hne : r' ≠ rid := by
            intro hc
            rw [hc, hlook] at hlookj
            injection hlookj with hlookj
            omega
          rw [rlookup_rerase, if_neg hne]
          exact hlookj
      · intro p hp
        rw [mem_rerase] at hp
        obtain ⟨hpmem, hpne⟩ := hp
        obtain ⟨hq0, hv0, hqslot⟩ := P2 p hpmem
        refine ⟨hq0, hv0, ?_⟩
        by_cases hpl : p.2.toNat = l.toNat
        · exfalso
          rw [hpl, hslot] at hqslot
          injection hqslot with hqslot
          exact hpne hqslot.symm
        · rw [List.getElem?_set_ne (fun hc => hpl hc.symm)]
          exact hqslot

theorem Reachable.invAux {s : LanceIndexState} (hs : Reachable s) :
    InvAux s.label_to_rowid s.rowid_to_label := by
  induction hs with
  | init name =>
    exact ⟨fun l r hl => by simp [initialState] at hl,
           fun p hp => by simp [initialState] at hp⟩
  | append s rows labels hs hfresh ih =>
    unfold appendOp
    by_cases h0 : rows.length = 0
    · rw [if_pos h0]
      exact ih
    · rw [if_neg h0]
      exact ih.applyMappingPairs (rows.zip labels) hfresh
  | appendFail s rows hs ih =>
    unfold appendOp
    by_cases h0 : rows.length = 0
    · rw [if_pos h0]
      exact ih
    · rw [if_neg h0]
      exact ih
  | delete s rows engineOk hs ih =>
    unfold deleteOp
    by_cases h0 : rows.length = 0
    · rw [if_pos h0]
      exact ih
    · rw [if_neg h0]
      have hres := ih.deleteResolve rows
      by_cases hcall : s.has_handle = true ∧
          (deleteResolve s.label_to_rowid s.rowid_to_label rows).2.2 ≠ []
      · rw [if_pos hcall]
        by_cases hok : engineOk = true
        · rw [if_pos hok]
          exact hres
        · rw [if_neg hok]
          exact hres
      · rw [if_neg hcall]
        exact hres
  | merge s otherFwd otherHasHandle newLabels hs hfresh ih =>
    unfold mergeOp
    by_cases hh : ¬s.has_handle = true ∨ ¬otherHasHandle = true
    · rw [if_pos hh]
      exact ih
    · rw [if_neg hh]
      exact ih.applyMappingPairs _ hfresh

/-! ## Helper lemmas for the claims -/
theorem rerase_eq_self {m : List (Int × Int)} {r : Int}
    (h : ∀ p ∈ m, p.1 ≠ r) : rerase m r = m := by
  induction m with
  | nil => rfl
  | cons p m ih =>
    rw [rerase_cons, if_neg (h p (List.mem_cons_self p m))]
    rw [ih (fun q hq => h q (List.mem_cons_of_mem p hq))]

theorem deleteOp_rowid_to_label (s : LanceIndexState) (rows : List Int)
    (ok : Bool) (h0 : rows ≠ []) :
    (deleteOp s rows ok).1.rowid_to_label =
      (deleteResolve s.label_to_rowid s.rowid_to_label rows).2.1 := by
  unfold deleteOp
  rw [if_neg (by simpa using h0)]
  by_cases hcall : s.has_handle = true ∧
      (deleteResolve s.label_to_rowid s.rowid_to_label rows).2.2 ≠ []
  · rw [if_pos hcall]
    by_cases hok : ok = true
    · rw [if_pos hok]
    · rw [if_neg hok]
  · rw [if_neg hcall]

theorem rlookup_deleteResolve_head (fwd : List Int) (rev : List (Int × Int))
    (r : Int) :
    rlookup (deleteResolve fwd rev [r]).2.1 r = none := by
  cases hlook : rlookup rev r with
  | none =>
    simp only [deleteResolve, hlook]
  | some l =>
    simp only [deleteResolve, hlook]
    rw [rlookup_rerase, if_pos rfl]

theorem deleteOp_skip (s : LanceIndexState) (r : Int) (ok : Bool)
    (h : rlookup s.rowid_to_label r = none) :
    deleteOp s [r] ok = ({ s with is_dirty := true }, false, true) := by
  unfold deleteOp
  rw [if_neg (by simp)]
  have hres : deleteResolve s.label_to_rowid s.rowid_to_label [r] =
      (s.label_to_rowid, s.rowid_to_label, []) := by
    simp only [deleteResolve, h]
  rw [hres]
  rw [if_neg (by simp)]

/-! ## C1 -/
/-- C1: Mapping bijection invariant: in every index state reachable from
the empty index by any sequence of Append (distinct fresh row ids), Delete,
and MergeIndexes (another index over disjoint row ids), every live forward
slot round-trips through the reverse mapping (`reverse[forward[L]] == L`)
and every reverse entry round-trips through the forward array
(`forward[reverse[R]] == R`). -/
theorem c1_mapping_bijection (s : LanceIndexState) (hs : Reachable s) :
    MappingInv s.label_to_rowid s.rowid_to_label :=
  hs.invAux.toMappingInv

theorem c1_mapping_bijection_witness :
    MappingInv
      (deleteOp (appendOp (initialState [116]) [10, 20] (.ok [0, 1])).1
        [10] true).1.label_to_rowid
      (deleteOp (appendOp (initialState [116]) [10, 20] (.ok [0, 1])).1
        [10] true).1.rowid_to_label :=
  c1_mapping_bijection _
    (Reachable.delete _ [10] true
      (Reachable.append _ [10, 20] [0, 1] (Reachable.init [116]) (by decide)))

/-! ## C8 -/
/-- C8: Delete idempotence and silent skip: a row id with no
reverse-mapping entry is skipped without error and triggers no engine
delete (the operation merely marks the index dirty); after any delete of a
row id the reverse entry is gone, so deleting the same row id again is a
no-op — no engine delete call, no error, both mapping tables unchanged. -/
theorem c8_delete_idempotent (s : LanceIndexState) (r : Int)
    (ok1 ok2 : Bool) :
    (∀ sk : LanceIndexState, rlookup sk.rowid_to_label r = none →
      deleteOp sk [r] ok2 = ({ sk with is_dirty := true }, false, true)) ∧
    rlookup (deleteOp s [r] ok1).1.rowid_to_label r = none ∧
    deleteOp (deleteOp s [r] ok1).1 [r] ok2 =
      ({ (deleteOp s [r] ok1).1 with is_dirty := true }, false, true) := by
  have hgone : rlookup (deleteOp s [r] ok1).1.rowid_to_label r = none := by
    rw [deleteOp_rowid_to_label s [r] ok1 (by simp)]
    exact rlookup_deleteResolve_head _ _ r
  exact ⟨fun sk hk => deleteOp_skip sk r ok2 hk, hgone,
    deleteOp_skip _ r ok2 hgone⟩

theorem c8_delete_idempotent_witness :
    deleteOp (deleteOp (appendOp (initialState [116]) [10] (.ok [0])).1
        [10] true).1 [10] true =
      ({ (deleteOp (appendOp (initialState [116]) [10] (.ok [0])).1
          [10] true).1 with is_dirty := true }, false, true) :=
  (c8_delete_idempotent (appendOp (initialState [116]) [10] (.ok [0])).1
    10 true true).2.2

/-! ## C5 (corrected) -/
/-- C5, as stated, is false: an in-range label whose forward slot holds
the `-1` sentinel is *not* omitted by the Search translation loop — the
engine hit `(0, 7)` against forward mapping `[-1]` is returned as
`(-1, 7)` instead of being skipped. -/
theorem c5_counterexample :
    searchOp { name := [], label_to_rowid := [SENTINEL], rowid_to_label := [],
               dimension := 3, nprobes := 20, refine_factor := 1,
               metric := [108, 50], table_name := [], lance_path := [],
               has_pending_deletes := false, is_dirty := true,
               has_handle := true } 3 [(0, 7)] = [(SENTINEL, 7)] ∧
    ([(SENTINEL, 7)] : List (Int × Int)) ≠ [] := by
  constructor
  · rfl
  · decide

/-- C5 (amended): Search label translation skips only out-of-range
labels: the translation loop keeps, in the engine's order, exactly the hits
whose label is within the forward array's bounds (negative or
past-the-end labels are omitted), translating each kept label through the
forward mapping — an in-range label is translated even when its slot holds
the `-1` sentinel. -/
theorem c5_search_translation (fwd : List Int) (hits : List (Int × Int)) :
    searchTranslate fwd hits =
      (hits.filter (fun p => decide (0 ≤ p.1 ∧ p.1.toNat < fwd.length))).map
        (fun p => (fwd.getD p.1.toNat 0, p.2)) := by
  induction hits with
  | nil => rfl
  | cons p hits ih =>
    obtain ⟨l, d⟩ := p
    by_cases h : 0 ≤ l ∧ l.toNat < fwd.length
    · rw [searchTranslate, dif_pos h, List.filter_cons_of_pos (by simpa using h),
        List.map_cons, ih]
      congr 1
      simp [List.getD, List.getElem?_eq_getElem h.2]
    · rw [searchTranslate, dif_neg h, List.filter_cons_of_neg (by simpa using h),
        ih]

/-! ## C10 -/
/-- C10: Index-name sanitization is total but not injective: every
sanitized name is non-empty and contains only `[A-Za-z0-9_-]` bytes, and
the distinct names `"a.b"` and `"a,b"` sanitize to the same string, so for
any non-empty database path they get the same backing-storage path. -/
theorem c10_sanitize_total_not_injective :
    (∀ name : List Nat, sanitizeIndexName name ≠ [] ∧
      ∀ c ∈ sanitizeIndexName name, allowedByte c = true) ∧
    (([97, 46, 98] : List Nat) ≠ [97, 44, 98] ∧
      sanitizeIndexName [97, 46, 98] = sanitizeIndexName [97, 44, 98]) ∧
    (∀ dbPath tempPath tempPath2 : List Nat, dbPath ≠ [] →
      getLancePath [] dbPath [97, 46, 98] tempPath =
        getLancePath [] dbPath [97, 44, 98] tempPath2) := by
  refine ⟨fun name => ⟨?_, ?_⟩, ⟨by decide, by decide⟩,
    fun dbPath tp1 tp2 hdb => ?_⟩
  · unfold sanitizeIndexName
    by_cases h : (name.map (fun c => if allowedByte c then c else 95)).length = 0
    · rw [if_pos h]
      decide
    · rw [if_neg h]
      simpa using h
  · intro c hc
    unfold sanitizeIndexName at hc
    by_cases h : (name.map (fun c => if allowedByte c then c else 95)).length = 0
    · rw [if_pos h] at hc
      have hall : ∀ x ∈ lanceIdxFallback, allowedByte x = true := by decide
      exact hall c hc
    · rw [if_neg h] at hc
      rw [List.mem_map] at hc
      obtain ⟨b, _, hb⟩ := hc
      by_cases hab : allowedByte b = true
      · rw [← hb, if_pos hab]
        exact hab
      · rw [← hb, if_neg hab]
        decide
  · have hpath : ∀ (nm tp : List Nat), getLancePath [] dbPath nm tp =
        dbPath ++ lanceDirSuffix ++ sanitizeIndexName nm := by
      intro nm tp
      unfold getLancePath
      rw [if_neg (by simp)]
      rw [if_neg (by simpa using hdb)]
    rw [hpath [97, 46, 98] tp1, hpath [97, 44, 98] tp2]
    have : sanitizeIndexName [97, 46, 98] = sanitizeIndexName [97, 44, 98] := by
      decide
    rw [this]

theorem c10_sanitize_witness :
    getLancePath [] [47] [97, 46, 98] [] = getLancePath [] [47] [97, 44, 98] [1] :=
  c10_sanitize_total_not_injective.2.2 [47] [] [1] (by decide)

/-! ## C3 (corrected) -/
/-- C3, as stated, is false for Delete: deleting an indexed row with a
failing engine delete-batch call reports failure, yet the mapping updates
for the batch have already been applied (the reverse entry is gone). -/
theorem c3_counterexample :
    (deleteOp (appendOp (initialState [116]) [10] (.ok [0])).1
      [10] false).2.2 = false ∧
    (deleteOp (appendOp (initialState [116]) [10] (.ok [0])).1
        [10] false).1.rowid_to_label ≠
      (appendOp (initialState [116]) [10] (.ok [0])).1.rowid_to_label := by
  constructor
  · rfl
  · decide

/-- C3 (amended): Batch atomicity holds for Append but not for Delete:
a failing batched Append leaves both mapping tables untouched, a
successful one applies every per-row update of the batch; Delete applies
its per-row mapping updates (forward slot cleared, reverse entry removed,
for every resolved row) *before* the single batched engine call, so the
mapping state after a failed engine delete equals the mapping state after
a successful one. -/
theorem c3_batch_atomicity (s : LanceIndexState) (rows labels : List Int) :
    ((appendOp s rows .err).1.label_to_rowid = s.label_to_rowid ∧
      (appendOp s rows .err).1.rowid_to_label = s.rowid_to_label) ∧
    (rows ≠ [] →
      (appendOp s rows (.ok labels)).1.label_to_rowid =
        (applyMappingPairs s.label_to_rowid s.rowid_to_label
          (rows.zip labels)).1 ∧
      (appendOp s rows (.ok labels)).1.rowid_to_label =
        (applyMappingPairs s.label_to_rowid s.rowid_to_label
          (rows.zip labels)).2) ∧
    ((deleteOp s rows false).1.label_to_rowid =
        (deleteOp s rows true).1.label_to_rowid ∧
      (deleteOp s rows false).1.rowid_to_label =
        (deleteOp s rows true).1.rowid_to_label) := by
  refine ⟨?_, ?_, ?_⟩
  · unfold appendOp
    by_cases h0 : rows.length = 0
    · rw [if_pos h0]
      exact ⟨rfl, rfl⟩
    · rw [if_neg h0]
      exact ⟨rfl, rfl⟩
  · intro hne
    unfold appendOp
    rw [if_neg (by simpa using hne)]
    exact ⟨rfl, rfl⟩
  · unfold deleteOp
    by_cases h0 : rows.length = 0
    · rw [if_pos h0, if_pos h0]
      exact ⟨rfl, rfl⟩
    · rw [if_neg h0, if_neg h0]
      by_cases hcall : s.has_handle = true ∧
          (deleteResolve s.label_to_rowid s.rowid_to_label rows).2.2 ≠ []
      · rw [if_pos hcall, if_pos hcall, if_neg (by simp), if_pos rfl]
        exact ⟨rfl, rfl⟩
      · rw [if_neg hcall, if_neg hcall]
        exact ⟨rfl, rfl⟩

theorem c3_batch_atomicity_witness :
    (appendOp (initialState [116]) [10] (.ok [0])).1.label_to_rowid =
      (applyMappingPairs [] [] ([10].zip [0])).1 :=
  ((c3_batch_atomicity (initialState [116]) [10] [0]).2.1 (by decide)).1

/-! ## C9 -/
/-- C9: The pending-deletes flag is not persisted: the byte stream
written by PersistToDisk is invariant under the flag, LoadFromStorage (run
on a freshly constructed index, whose flag is false) yields a state with
the flag false, and Vacuum on the loaded state is a no-op that issues no
engine compaction call. -/
theorem c9_pending_deletes_not_persisted (s sload : LanceIndexState)
    (avail : List Nat) (b : Bool)
    (hcons : sload.has_pending_deletes = false) :
    (persistToDisk { s with has_pending_deletes := b }).2 =
      (persistToDisk s).2 ∧
    (loadFromStorage sload avail).has_pending_deletes = false ∧
    vacuumOp (loadFromStorage sload avail) =
      (loadFromStorage sload avail, false) := by
  refine ⟨?_, ?_, ?_⟩
  · unfold persistToDisk
    by_cases hg : ¬s.is_dirty = true ∨ ¬s.has_handle = true
    · rw [if_pos hg, if_pos hg]
    · rw [if_neg hg, if_neg hg]
      simp [persistEncode]
  · show sload.has_pending_deletes = false
    exact hcons
  · unfold vacuumOp
    rw [if_pos]
    left
    show ¬sload.has_pending_deletes = true
    rw [hcons]
    exact Bool.false_ne_true

theorem c9_pending_deletes_witness :
    vacuumOp (loadFromStorage (initialState [116]) [1, 2, 3]) =
      (loadFromStorage (initialState [116]) [1, 2, 3], false) :=
  (c9_pending_deletes_not_persisted (initialState [])
    (initialState [116]) [1, 2, 3] true rfl).2.2

/-! ## C4 (code bug: unchecked short reads) -/
/-- C4: `LoadFromStorage` never checks the byte counts returned by
`LinkedBlockReader::Read`, so a metadata image whose chain ends before the
declared payload (here: `num_mappings = 2` declared, but the stream
truncated after the first 8-byte mapping entry) loads *successfully*,
yielding a zero-filled tail (`[5, 0]` instead of the persisted `[5, 7]`)
instead of the fatal load failure the specification requires. -/
theorem c4_truncated_load_completes :
    (loadFromStorage (initialState [])
      ((persistEncode
        { name := [116], label_to_rowid := [5, 7],
          rowid_to_label := [(5, 0), (7, 1)], dimension := 3, nprobes := 20,
          refine_factor := 1, metric := [108, 50], table_name := [116],
          lance_path := [112], has_pending_deletes := false, is_dirty := true,
          has_handle := true }).take 21)).label_to_rowid = [5, 0] ∧
    ([5, 0] : List Int) ≠ [5, 7] := by
  constructor
  · rfl
  · decide

/-! ## C2 -/
theorem liveEntriesFrom_cons (i : Nat) (r : Int) (rest : List Int) :
    liveEntriesFrom i (r :: rest) =
      if r ≠ SENTINEL then (i, r) :: liveEntriesFrom (i + 1) rest
      else liveEntriesFrom (i + 1) rest := rfl

theorem rebuildReverseFrom_eq (fwd : List Int) (i : Nat)
    (m : List (Int × Int))
    (hnodup : ((liveEntriesFrom i fwd).map (fun p => p.2)).Nodup)
    (hdisj : ∀ p ∈ m, ∀ q ∈ liveEntriesFrom i fwd, p.1 ≠ q.2) :
    rebuildReverseFrom m i fwd =
      ((liveEntriesFrom i fwd).map (fun p => (p.2, (p.1 : Int)))).reverse ++ m := by
  induction fwd generalizing i m with
  | nil => simp [rebuildReverseFrom, liveEntriesFrom]
  | cons r rest ih =>
    rw [liveEntriesFrom_cons] at hnodup hdisj ⊢
    by_cases hr : r ≠ SENTINEL
    · rw [if_pos hr] at hnodup hdisj ⊢
      rw [List.map_cons, List.nodup_cons] at hnodup
      have hmem : ∀ p ∈ m, p.1 ≠ r := by
        intro p hp
        exact hdisj p hp (i, r) (List.mem_cons_self _ _)
      have hins : rinsert m r (i : Int) = (r, (i : Int)) :: m := by
        rw [rinsert, rerase_eq_self hmem]
      rw [rebuildReverseFrom, if_pos hr, hins]
      rw [ih (i + 1) ((r, (i : Int)) :: m) hnodup.2 ?_]
      · rw [List.map_cons, List.reverse_cons, List.append_assoc]
        rfl
      · intro p hp q hq
        rcases List.mem_cons.mp hp with hp | hp
        · subst hp
          intro hc
          have hc2 : r = q.2 := hc
          apply hnodup.1
          show r ∈ List.map (fun p => p.2) (liveEntriesFrom (i + 1) rest)
          rw [hc2]
          exact List.mem_map_of_mem (fun p => p.2) hq
        · exact hdisj p hp q (List.mem_cons_of_mem _ hq)
    · rw [if_neg hr] at hnodup hdisj ⊢
      rw [rebuildReverseFrom, if_neg hr]
      exact ih (i + 1) m hnodup hdisj

theorem rebuildReverse_inverts (fwd : List Int)
    (hnodup : ((liveEntries fwd).map (fun p => p.2)).Nodup) :
    rebuildReverse fwd =
      ((liveEntries fwd).map (fun p => (p.2, (p.1 : Int)))).reverse := by
  have h := rebuildReverseFrom_eq fwd 0 [] (by simpa [liveEntries] using hnodup)
    (by simp)
  simpa [rebuildReverse, liveEntries] using h

/-- C2: Round-trip persistence: for a dirty index with an open handle
(any state reached by Append/Delete, which also makes the live row ids
duplicate-free per C1) whose fields are within their machine-integer
ranges, PersistToDisk writes the byte stream in the order (table name,
forward-mapping length and entries, dimension, probe count, refine factor,
metric, backing path); LoadFromStorage reads it back in the same order
(any trailing block padding ignored), reproducing every persisted field,
rebuilding the reverse mapping as exactly the forward mapping's live
entries inverted, and yielding identical Search results for every query
and engine response. -/
theorem c2_persist_load_roundtrip (s s0 : LanceIndexState) (extra : List Nat)
    (hdirty : s.is_dirty = true) (hhandle : s.has_handle = true)
    (htn : s.table_name ≠ [])
    (htnlen : s.table_name.length < 2 ^ 32)
    (hfwlen : s.label_to_rowid.length < 2 ^ 64)
    (hfwrange : ∀ x ∈ s.label_to_rowid, -(2 ^ 63) ≤ x ∧ x < 2 ^ 63)
    (hdim1 : -(2 ^ 31) ≤ s.dimension) (hdim2 : s.dimension < 2 ^ 31)
    (hnp1 : -(2 ^ 31) ≤ s.nprobes) (hnp2 : s.nprobes < 2 ^ 31)
    (hrf1 : -(2 ^ 31) ≤ s.refine_factor) (hrf2 : s.refine_factor < 2 ^ 31)
    (hmlen : s.metric.length < 2 ^ 32)
    (hplen : s.lance_path.length < 2 ^ 32)
    (hnodup : ((liveEntries s.label_to_rowid).map (fun p => p.2)).Nodup) :
    (persistToDisk s).2 = some (persistEncode s) ∧
    loadFromStorage s0 (persistEncode s ++ extra) =
      { s0 with table_name := s.table_name,
                label_to_rowid := s.label_to_rowid,
                dimension := s.dimension, nprobes := s.nprobes,
                refine_factor := s.refine_factor, metric := s.metric,
                lance_path := s.lance_path,
                rowid_to_label := rebuildReverse s.label_to_rowid,
                has_handle := true, is_dirty := false } ∧
    rebuildReverse s.label_to_rowid =
      ((liveEntries s.label_to_rowid).map (fun p => (p.2, (p.1 : Int)))).reverse ∧
    (∀ (queryDim : Int) (engineHits : List (Int × Int)),
      searchOp (loadFromStorage s0 (persistEncode s ++ extra)) queryDim
        engineHits = searchOp s queryDim engineHits) := by
  have htn0 : ¬(s.table_name.length = 0) := by simpa using htn
  have hstream : persistEncode s ++ extra =
      natToBytes 4 s.table_name.length ++ (s.table_name ++
      (natToBytes 8 s.label_to_rowid.length ++
      ((s.label_to_rowid.map (intToBytes 8)).flatten ++
      (intToBytes 4 s.dimension ++ (intToBytes 4 s.nprobes ++
      (intToBytes 4 s.refine_factor ++ (natToBytes 4 s.metric.length ++
      (s.metric ++ (natToBytes 4 s.lance_path.length ++
      (s.lance_path ++ extra)))))))))) := by
    simp [persistEncode, htn, List.append_assoc]
  have hdec : loadFromStorage s0 (persistEncode s ++ extra) =
      { s0 with table_name := s.table_name,
                label_to_rowid := s.label_to_rowid,
                dimension := s.dimension, nprobes := s.nprobes,
                refine_factor := s.refine_factor, metric := s.metric,
                lance_path := s.lance_path,
                rowid_to_label := rebuildReverse s.label_to_rowid,
                has_handle := true, is_dirty := false } := by
    rw [hstream]
    simp only [loadFromStorage,
      readU32_encode _ _ htnlen,
      readStr_exact,
      readU64_encode _ _ hfwlen,
      readRowids_encode _ _ hfwrange,
      readI32_encode _ _ _ hdim1 hdim2,
      readI32_encode _ _ _ hnp1 hnp2,
      readI32_encode _ _ _ hrf1 hrf2,
      readU32_encode _ _ hmlen,
      readU32_encode _ _ hplen]
  refine ⟨?_, hdec, rebuildReverse_inverts _ hnodup, ?_⟩
  · unfold persistToDisk
    rw [if_neg (by simp [hdirty, hhandle])]
  · intro qd hits
    rw [hdec]
    simp only [searchOp, hhandle]

theorem c2_persist_load_roundtrip_witness :
    searchOp (loadFromStorage (initialState [])
        (persistEncode
          { name := [116], label_to_rowid := [5, -1, 7],
            rowid_to_label := [(5, 0), (7, 2)], dimension := 3, nprobes := 20,
            refine_factor := 1, metric := [108, 50], table_name := [116],
            lance_path := [112], has_pending_deletes := false,
            is_dirty := true, has_handle := true } ++ [9])) 3 [(0, 4)] =
      searchOp
        { name := [116], label_to_rowid := [5, -1, 7],
          rowid_to_label := [(5, 0), (7, 2)], dimension := 3, nprobes := 20,
          refine_factor := 1, metric := [108, 50], table_name := [116],
          lance_path := [112], has_pending_deletes := false,
          is_dirty := true, has_handle := true } 3 [(0, 4)] :=
  (c2_persist_load_roundtrip
    { name := [116], label_to_rowid := [5, -1, 7],
      rowid_to_label := [(5, 0), (7, 2)], dimension := 3, nprobes := 20,
      refine_factor := 1, metric := [108, 50], table_name := [116],
      lance_path := [112], has_pending_deletes := false,
      is_dirty := true, has_handle := true }
    (initialState []) [9] rfl rfl (by decide) (by decide) (by decide)
    (by decide) (by decide) (by decide) (by decide) (by decide) (by decide)
    (by decide) (by decide) (by decide) (by decide)).2.2.2 3 [(0, 4)]

/-! ## C6 (corrected) -/
/-- C6, as stated, is false for the offset condition: a query that
requests `OFFSET 0` (a constant zero offset) is still rewritten — the skip
check at src/lance_optimizer.cpp:403 only fires for a constant offset
greater than zero (a non-constant offset does not fire it either). -/
theorem c6_counterexample :
    tryRewriteStep
      (.limitN (.constVal 5) (.constVal 0)
        [.orderN [(.ascending,
            .func "array_distance" [.colRef 0, .constVec .arrayK [1, 2, 3]])]
          [.getN { tableIndex := 0, columnIds := [0], columnNames := ["vec"],
                   isDuckTable := true,
                   indexes := [{ indexType := "LANCE", iname := "idx",
                                 columns := [0], metric := "l2" }] }]]) =
      .indexScanN { indexName := "idx", queryVector := [1, 2, 3], limit := 5,
                    predicate := "" }
        { tableIndex := 0, columnIds := [0], columnNames := ["vec"],
          isDuckTable := true,
          indexes := [{ indexType := "LANCE", iname := "idx",
                        columns := [0], metric := "l2" }] } ∧
    ∀ lv ov cs, LPlan.indexScanN
        { indexName := "idx", queryVector := [1, 2, 3], limit := 5,
          predicate := "" }
        { tableIndex := 0, columnIds := [0], columnNames := ["vec"],
          isDuckTable := true,
          indexes := [{ indexType := "LANCE", iname := "idx",
                        columns := [0], metric := "l2" }] } ≠
      LPlan.limitN lv ov cs := by
  refine ⟨rfl, fun lv ov cs h => ?_⟩
  exact LPlan.noConfusion h

/-- C6 (amended): Rewrite skip conditions: the match step leaves the
plan unchanged whenever the Limit node's limit is non-constant or
percentage-based, OR a constant offset greater than zero is requested
(non-constant and zero offsets do not block the rewrite), OR the sort is
descending, OR there is not exactly one sort key, OR the distance
function's second argument is not a constant vector (or is an empty one),
OR no index with a matching column and compatible metric exists. -/
theorem c6_rewrite_skip_conditions (lv ov : LimitVal) (cs ocs : List LPlan)
    (orders : List (OrderKind × OExpr)) (k : Nat) (okind : OrderKind)
    (oexpr arg1 arg2 : OExpr) (fname : String) (walk : LPlan)
    (fo : Option (List FExpr)) (g : GetInfo) (hasProj : Bool) :
    ((∀ v, lv ≠ .constVal v) →
      tryRewriteStep (.limitN lv ov cs) = .limitN lv ov cs) ∧
    (∀ v, 0 < v →
      tryRewriteStep (.limitN (.constVal k) (.constVal v) cs) =
        .limitN (.constVal k) (.constVal v) cs) ∧
    (tryRewriteStep (.limitN (.constVal k) ov
        [.orderN [(.descending, oexpr)] ocs]) =
      .limitN (.constVal k) ov [.orderN [(.descending, oexpr)] ocs]) ∧
    (orders.length ≠ 1 →
      tryRewriteStep (.limitN (.constVal k) ov [.orderN orders ocs]) =
        .limitN (.constVal k) ov [.orderN orders ocs]) ∧
    ((∀ xs, extractQueryVector arg2 = some xs → xs = []) →
      tryRewriteStep (.limitN (.constVal k) ov
          [.orderN [(okind, .func fname [arg1, arg2])] ocs]) =
        .limitN (.constVal k) ov
          [.orderN [(okind, .func fname [arg1, arg2])] ocs]) ∧
    (walkToGet walk = some (fo, g, hasProj) →
      findLanceIndex g.indexes (resolveTargetColumn g arg1)
        (distanceFunctionToMetric fname) = none →
      tryRewriteStep (.limitN (.constVal k) ov
          [.orderN [(okind, .func fname [arg1, arg2])] [walk]]) =
        .limitN (.constVal k) ov
          [.orderN [(okind, .func fname [arg1, arg2])] [walk]]) := by
  refine ⟨?_, ?_, ?_, ?_, ?_, ?_⟩
  · intro h
    cases lv with
    | unset => rfl
    | constVal v => exact absurd rfl (h v)
    | constPct v => rfl
    | exprVal => rfl
    | exprPct => rfl
  · intro v hv
    have hb : offsetBlocksRewrite (.constVal v) = true := by
      simp [offsetBlocksRewrite, hv]
    simp [tryRewriteStep, hb]
  · by_cases hob : offsetBlocksRewrite ov = true
    · simp [tryRewriteStep, hob]
    · simp [tryRewriteStep, hob]
  · intro hlen
    by_cases hob : offsetBlocksRewrite ov = true
    · simp [tryRewriteStep, hob]
    · cases orders with
      | nil => simp [tryRewriteStep, hob]
      | cons a tail =>
        cases tail with
        | nil => simp at hlen
        | cons b t2 => simp [tryRewriteStep, hob]
  · intro hvec
    by_cases hob : offsetBlocksRewrite ov = true
    · simp [tryRewriteStep, hob]
    · by_cases hk : okind = .descending
      · simp [tryRewriteStep, hob, hk]
      · by_cases hd : isArrayDistanceFunction (.func fname [arg1, arg2]) = true
        · cases hq : extractQueryVector arg2 with
          | none => simp [tryRewriteStep, hob, hk, hd, hq]
          | some xs =>
            have hxs : xs = [] := hvec xs hq
            subst hxs
            simp [tryRewriteStep, hob, hk, hd, hq]
        · simp [tryRewriteStep, hob, hk, hd]
  · intro hwalk hfind
    by_cases hob : offsetBlocksRewrite ov = true
    · simp [tryRewriteStep, hob]
    · by_cases hk : okind = .descending
      · simp [tryRewriteStep, hob, hk]
      · by_cases hd : isArrayDistanceFunction (.func fname [arg1, arg2]) = true
        · cases hq : extractQueryVector arg2 with
          | none => simp [tryRewriteStep, hob, hk, hd, hq]
          | some xs =>
            cases hxs : xs.isEmpty with
            | true => simp [tryRewriteStep, hob, hk, hd, hq, hxs]
            | false =>
              by_cases hduck : g.isDuckTable = true
              · simp [tryRewriteStep, hob, hk, hd, hq, hxs, hwalk, hfind, hduck]
              · simp [tryRewriteStep, hob, hk, hd, hq, hxs, hwalk, hfind, hduck]
        · simp [tryRewriteStep, hob, hk, hd]

theorem c6_rewrite_skip_witness :
    tryRewriteStep (.limitN .exprVal .unset []) = .limitN .exprVal .unset [] :=
  (c6_rewrite_skip_conditions .exprVal .unset [] [] [] 0 .ascending .otherE
    .otherE .otherE "f"
    (.getN (GetInfo.mk 0 [] [] true []))
    none (GetInfo.mk 0 [] [] true []) false).1
    (fun _ h => LimitVal.noConfusion h)

/-! ## C7 -/
theorem partitionPredicates_eq (g : GetInfo) (es : List FExpr) :
    partitionPredicates g es =
      (es.filterMap (exprToLancePredicate g),
       es.filter (fun e => (exprToLancePredicate g e).isNone)) := by
  induction es with
  | nil => rfl
  | cons e es ih =>
    cases he : exprToLancePredicate g e with
    | none =>
      simp only [partitionPredicates, ih, he, List.filterMap_cons,
        List.filter_cons, Option.isNone_none]
      rfl
    | some sql =>
      simp only [partitionPredicates, ih, he, List.filterMap_cons,
        List.filter_cons, Option.isNone_some]
      rfl

/-- C7: Partial predicate pushdown preserves residual filtering: in a
matched rewrite with a filter, the AND-split conjuncts that translate are
joined with `" AND "` into the pushed predicate of the replacement index
scan, every conjunct that fails to translate stays in a filter node above
the replacement scan (above the intervening projection, when present), and
the filter node disappears exactly when every conjunct translates. -/
theorem c7_partial_pushdown (k : Nat) (ov : LimitVal) (okind : OrderKind)
    (fname : String) (ci : Nat) (vk : VecKind) (xs : List Int)
    (fexprs : List FExpr) (g : GetInfo) (idxName : String)
    (hoff : offsetBlocksRewrite ov = false)
    (hkind : okind ≠ .descending)
    (hdist : isArrayDistanceFunction
      (.func fname [.colRef ci, .constVec vk xs]) = true)
    (hxs : xs.isEmpty = false)
    (hduck : g.isDuckTable = true)
    (hfind : findLanceIndex g.indexes (resolveTargetColumn g (.colRef ci))
      (distanceFunctionToMetric fname) = some idxName)
    (hfe : fexprs ≠ []) :
    (tryRewriteStep (.limitN (.constVal k) ov
        [.orderN [(okind, .func fname [.colRef ci, .constVec vk xs])]
          [.filterN fexprs [.getN g]]]) =
      if ((splitPredicates fexprs).filter
          (fun e => (exprToLancePredicate g e).isNone)).isEmpty then
        .indexScanN
          ⟨idxName, xs, k, String.intercalate " AND "
            ((splitPredicates fexprs).filterMap (exprToLancePredicate g))⟩ g
      else
        .filterN ((splitPredicates fexprs).filter
            (fun e => (exprToLancePredicate g e).isNone))
          [.indexScanN
            ⟨idxName, xs, k, String.intercalate " AND "
              ((splitPredicates fexprs).filterMap (exprToLancePredicate g))⟩
            g]) ∧
    (∀ e ∈ (splitPredicates fexprs).filter
        (fun e => (exprToLancePredicate g e).isNone),
      exprToLancePredicate g e = none) ∧
    (tryRewriteStep (.limitN (.constVal k) ov
        [.orderN [(okind, .func fname [.colRef ci, .constVec vk xs])]
          [.filterN fexprs [.projN [.getN g]]]]) =
      if ((splitPredicates fexprs).filter
          (fun e => (exprToLancePredicate g e).isNone)).isEmpty then
        .projN [.indexScanN
          ⟨idxName, xs, k, String.intercalate " AND "
            ((splitPredicates fexprs).filterMap (exprToLancePredicate g))⟩ g]
      else
        .filterN ((splitPredicates fexprs).filter
            (fun e => (exprToLancePredicate g e).isNone))
          [.projN [.indexScanN
            ⟨idxName, xs, k, String.intercalate " AND "
              ((splitPredicates fexprs).filterMap (exprToLancePredicate g))⟩
            g]]) := by
  have hwalk1 : walkToGet (.filterN fexprs [.getN g]) =
      some (some fexprs, g, false) := rfl
  have hwalk2 : walkToGet (.filterN fexprs [.projN [.getN g]]) =
      some (some fexprs, g, true) := rfl
  have hfee : fexprs.isEmpty = false := by
    cases fexprs with
    | nil => exact absurd rfl hfe
    | cons a b => rfl
  refine ⟨?_, ?_, ?_⟩
  · cases hq : extractQueryVector (.constVec vk xs) with
    | none => simp [extractQueryVector] at hq
    | some ys =>
      simp only [extractQueryVector, Option.some_inj] at hq
      subst hq
      simp only [tryRewriteStep, hoff, Bool.false_eq_true, if_false,
        List.head?_cons, if_neg hkind, hdist, not_true_eq_false, if_false,
        extractQueryVector, hxs, hwalk1, hduck, hfind, hfee,
        partitionPredicates_eq, assembleRewrite, splitPredicates]
  · intro e he
    rw [List.mem_filter] at he
    exact Option.isNone_iff_eq_none.mp he.2
  · cases hq : extractQueryVector (.constVec vk xs) with
    | none => simp [extractQueryVector] at hq
    | some ys =>
      simp only [extractQueryVector, Option.some_inj] at hq
      subst hq
      simp only [tryRewriteStep, hoff, Bool.false_eq_true, if_false,
        List.head?_cons, if_neg hkind, hdist, not_true_eq_false, if_false,
        extractQueryVector, hxs, hwalk2, hduck, hfind, hfee,
        partitionPredicates_eq, assembleRewrite, splitPredicates, if_true]

theorem c7_partial_pushdown_witness :
    tryRewriteStep (.limitN (.constVal 5) .unset
        [.orderN [(.ascending, .func "array_distance"
            [.colRef 0, .constVec .arrayK [1, 2]])]
          [.filterN [FExpr.cmp .gtC (.colRef 1) (.constE (.int32V 10)),
              FExpr.otherE]
            [.getN (GetInfo.mk 0 [0, 1] ["vec", "price"] true
              [CatalogIndex.mk "LANCE" "idx" [0] "l2"])]]]) =
      .filterN [FExpr.otherE]
        [.indexScanN (BindData.mk "idx" [1, 2] 5 "price > 10")
          (GetInfo.mk 0 [0, 1] ["vec", "price"] true
            [CatalogIndex.mk "LANCE" "idx" [0] "l2"])] := by
  have h := (c7_partial_pushdown 5 .unset .ascending "array_distance" 0
    .arrayK [1, 2]
    [FExpr.cmp .gtC (.colRef 1) (.constE (.int32V 10)), FExpr.otherE]
    (GetInfo.mk 0 [0, 1] ["vec", "price"] true
      [CatalogIndex.mk "LANCE" "idx" [0] "l2"]) "idx"
    rfl (by decide) rfl rfl rfl rfl (List.cons_ne_nil _ _)).1
  rw [h]
  rfl

end LanceDB

